import Mathlib

/-!
Shallow embedding of the Arduboy ReComp build pipeline (`compiler.py`).

The embedding models, directly from the source:
  - `get_build_flags` and its three lookup tables (flag derivation);
  - the staged source tree as a rose tree of named files and directories,
    with `os.walk`-order enumeration (`walkEntry`/`walkSubs`: the files of a
    directory are yielded before its subdirectories are visited, all in the
    directory's listing order, exactly as `os.walk` enumerates them);
  - `find_sketch_file` (entry-file discovery: first `.ino` file whose
    lowered content contains both `setup(` and `loop(`; a file whose read
    raises is modelled with `content = none` and is skipped);
  - `rename_sketch_file` (rename the found file to `<parent dir>.ino`,
    with POSIX rename semantics replacing an existing target);
  - `compile_local_sketch`'s local staging step;
  - `CompileThread.run` (compiler exit handling and `.hex` artifact lookup);
  - `handle_remove_readonly` (the `shutil.rmtree` error handler);
  - the remote-build orchestration (`compile_remote_sketch` →
    `handle_clone_finished` → `handle_compile_finished`), tracking whether
    the `temp_clone` staging directory still exists when the job ends.
-/

/-! ### String helpers (Python `str` operations over the character list) -/

/-- Bool test that `sub` is a prefix of `hay` (character lists). -/
def charsPref : List Char → List Char → Bool
  | [], _ => true
  | _ :: _, [] => false
  | a :: as, b :: bs => a == b && charsPref as bs

/-- Python `str.endswith`. -/
def strEndsWith (s suffix : String) : Bool :=
  charsPref suffix.data.reverse s.data.reverse

/-- Python `str.startswith`. -/
def strStartsWith (s pre : String) : Bool :=
  charsPref pre.data s.data

/-- Substring search on character lists (Python's `sub in hay`). -/
def charsContains : List Char → List Char → Bool
  | [], sub => charsPref sub []
  | c :: t, sub => charsPref sub (c :: t) || charsContains t sub

/-- Python's `sub in hay` on strings. -/
def strContainsSub (hay sub : String) : Bool :=
  charsContains hay.data sub.data

/-- Python `str.lower`, character by character (the sketch markers and the
source files in play are ASCII, where this agrees with Python). -/
def strToLower (s : String) : String :=
  String.mk (s.data.map Char.toLower)

/-- `pathlib.PurePath.stem`: the final path component minus its last suffix.
A suffix exists when the last dot sits strictly between the first and the
last character of the name. -/
def pathStem (name : String) : String :=
  match name.data.reverse.findIdx? (fun c => c = '.') with
  | none => name
  | some i =>
    let n := name.data.length
    let j := n - 1 - i
    if 0 < j ∧ j < n - 1 then String.mk (name.data.take j) else name

/-- The part of a file name that `pathStem` removes (its last suffix). -/
def pathSuffix (name : String) : String :=
  String.mk (name.data.drop (pathStem name).data.length)

/-! ### Flag derivation (`ArduboyManager.get_build_flags`) -/

/-- The `variant_flags` dict literal of `get_build_flags`. -/
def variant_flags_table : List (String × String) :=
  [("Arduino Leonardo", "-DARDUBOY_LEONARDO"),
   ("Arduino/Genuino Micro", "-DARDUBOY_MICRO"),
   ("Pro Micro 5V Standard Wiring", "-DARDUBOY_PRO_MICRO"),
   ("Arduino Pro Micro Alternate Wiring", "-DARDUBOY_PRO_MICRO -DAB_ALTERNATE_WIRING")]

/-- `variant_flags = {...}.get(variant, "-DARDUBOY_PRO_MICRO")`. -/
def variant_flags (variant : String) : String :=
  (variant_flags_table.lookup variant).getD "-DARDUBOY_PRO_MICRO"

/-- The `display_flags` dict literal of `get_build_flags`. -/
def display_flags_table : List (String × String) :=
  [("SH1106", "-DOLED_SH1106"),
   ("SSD1306", "-DOLED_SSD1306"),
   ("SSD1309", "-DOLED_SSD1309")]

/-- `display_flags = {...}.get(display, "-DOLED_SSD1306")`. -/
def display_flags (display : String) : String :=
  (display_flags_table.lookup display).getD "-DOLED_SSD1306"

/-- The `flash_flags` dict literal of `get_build_flags`. -/
def flash_flags_table : List (String × String) :=
  [("Pin2/D1/SDA", "-DCART_CS_SDA"),
   ("Pin0/D0/Rx", "-DCART_CS_RX")]

/-- `flash_flags = {...}.get(flash_chip, "-DCART_CS_SDA")`. -/
def flash_flags (flash_chip : String) : String :=
  (flash_flags_table.lookup flash_chip).getD "-DCART_CS_SDA"

/-- `ArduboyManager.get_build_flags`, as a function of the three combo-box
selections.  Returns the two command-line arguments it produces: the literal
`--build-property` and the single space-separated `build.extra_flags=` value. -/
def get_build_flags (variant display flash_chip : String) : String × String :=
  ("--build-property",
    "build.extra_flags=" ++ variant_flags variant ++ " " ++ display_flags display
      ++ " " ++ flash_flags flash_chip ++ " -DUSB_VID=0x2341 " ++ "-DUSB_PID=0x8036")

/-- Following the spec's words: the documented board-variant table with the
"Pro Micro" flag as default for a selection absent from the table. -/
def spec_variant_flag (variant : String) : String :=
  if variant = "Arduino Leonardo" then "-DARDUBOY_LEONARDO"
  else if variant = "Arduino/Genuino Micro" then "-DARDUBOY_MICRO"
  else if variant = "Pro Micro 5V Standard Wiring" then "-DARDUBOY_PRO_MICRO"
  else if variant = "Arduino Pro Micro Alternate Wiring" then
    "-DARDUBOY_PRO_MICRO -DAB_ALTERNATE_WIRING"
  else "-DARDUBOY_PRO_MICRO"

/-- Following the spec's words: the documented display table with the
SSD1306 flag as default. -/
def spec_display_flag (display : String) : String :=
  if display = "SH1106" then "-DOLED_SH1106"
  else if display = "SSD1306" then "-DOLED_SSD1306"
  else if display = "SSD1309" then "-DOLED_SSD1309"
  else "-DOLED_SSD1306"

/-- Following the spec's words: the documented flash-chip table with the
SDA-pin flag as default. -/
def spec_flash_flag (flash_chip : String) : String :=
  if flash_chip = "Pin2/D1/SDA" then "-DCART_CS_SDA"
  else if flash_chip = "Pin0/D0/Rx" then "-DCART_CS_RX"
  else "-DCART_CS_SDA"

/-! ### The staged source tree and `os.walk` enumeration -/

mutual
/-- A filesystem entry of the staged tree.  A file's `content` is `none`
when reading it raises (the `except` branch of `find_sketch_file`). -/
inductive FsEntry where
  | file (name : String) (content : Option String)
  | dir (name : String) (entries : FsListing)

/-- A directory listing, in the order the operating system enumerates it
(the order `os.walk`/`os.scandir` hand back). -/
inductive FsListing where
  | lnil
  | lcons (e : FsEntry) (rest : FsListing)
end

/-- One file as `os.walk` yields it: directory path, file name, content. -/
abbrev WalkRec := List String × String × Option String

/-- The files sitting directly in a directory (the `files` component of one
`os.walk` triple), in listing order. -/
def filesAt (path : List String) : FsListing → List WalkRec
  | .lnil => []
  | .lcons (.file n c) rest => (path, n, c) :: filesAt path rest
  | .lcons (.dir _ _) rest => filesAt path rest

mutual
/-- `os.walk` enumeration of an entry: a directory yields its own files
first, then the walk of each subdirectory, in listing order. -/
def walkEntry (path : List String) : FsEntry → List WalkRec
  | .file _ _ => []
  | .dir n es => filesAt (path ++ [n]) es ++ walkSubs (path ++ [n]) es

/-- `os.walk` enumeration of the subdirectories of a listing. -/
def walkSubs (path : List String) : FsListing → List WalkRec
  | .lnil => []
  | .lcons e rest => walkEntry path e ++ walkSubs path rest
end

/-- The marker test of `find_sketch_file`: the file content, lowered,
contains both `setup(` and `loop(` as substrings. -/
def sketch_markers_ok (content : String) : Bool :=
  strContainsSub (strToLower content) "setup(" && strContainsSub (strToLower content) "loop("

/-- One candidate check of `find_sketch_file`: name ends in `.ino`, the
file could be read, and its content passes the marker test. -/
def qualifiesRec (r : WalkRec) : Bool :=
  strEndsWith r.2.1 ".ino" &&
    (match r.2.2 with
     | some c => sketch_markers_ok c
     | none => false)

/-- `ArduboyManager.find_sketch_file`: the first file in `os.walk` order
that ends in `.ino`, can be read, and contains both markers; `none` models
the `return None` (no sketch found). -/
def find_sketch_file (t : FsEntry) : Option WalkRec :=
  (walkEntry [] t).find? qualifiesRec

/-! ### Renaming the found sketch (`ArduboyManager.rename_sketch_file`) -/

/-- POSIX `rename(old, new)` inside one directory listing: the file named
`old` takes the name `new` in place; a pre-existing file named `new` is
replaced (removed).  Subdirectories are untouched. -/
def renameListing (old new : String) : FsListing → FsListing
  | .lnil => .lnil
  | .lcons (.file n c) rest =>
    if n = old then .lcons (.file new c) (renameListing old new rest)
    else if n = new then renameListing old new rest
    else .lcons (.file n c) (renameListing old new rest)
  | .lcons (.dir n es) rest => .lcons (.dir n es) (renameListing old new rest)

/-- Apply `f` to the entries of every subdirectory named `d` of a listing. -/
def descendInto (d : String) (f : FsListing → FsListing) : FsListing → FsListing
  | .lnil => .lnil
  | .lcons (.file n c) rest => .lcons (.file n c) (descendInto d f rest)
  | .lcons (.dir n es) rest =>
    .lcons (.dir n (if n = d then f es else es)) (descendInto d f rest)

/-- Perform the rename in the directory reached by the relative path `rel`. -/
def renameAtPath (old new : String) : List String → FsListing → FsListing
  | [], es => renameListing old new es
  | d :: ds, es => descendInto d (renameAtPath old new ds) es

/-- Perform the rename at an absolute walk path (whose head is the root's
own name). -/
def renameInTree (old new : String) (dirPath : List String) (t : FsEntry) : FsEntry :=
  match t, dirPath with
  | .dir n es, _ :: rel => .dir n (renameAtPath old new rel es)
  | t, _ => t

/-- `ArduboyManager.rename_sketch_file` on the staged tree: rename the
found sketch to `<parent directory name>.ino` unless it already has that
name; returns the updated tree and the path the build goes on to use. -/
def rename_sketch_file (t : FsEntry) (r : WalkRec) : FsEntry × WalkRec :=
  let parentName := r.1.getLastD ""
  let newName := parentName ++ ".ino"
  if r.2.1 = newName then (t, r)
  else (renameInTree r.2.1 newName r.1 t, (r.1, newName, r.2.2))

/-- The Locator as `handle_clone_finished` runs it: discovery followed by
the rename. -/
def locate_and_rename (t : FsEntry) : Option (FsEntry × WalkRec) :=
  (find_sketch_file t).map (rename_sketch_file t)

/-! ### Dropping unreadable files (for the discovery-skips-errors claim) -/

mutual
/-- The tree with every unreadable file (content `none`) removed. -/
def dropUnreadableEntry : FsEntry → FsEntry
  | .file n c => .file n c
  | .dir n es => .dir n (dropUnreadableList es)

/-- The listing with every unreadable file removed, recursively. -/
def dropUnreadableList : FsListing → FsListing
  | .lnil => .lnil
  | .lcons (.file _ none) rest => dropUnreadableList rest
  | .lcons (.file n (some c)) rest => .lcons (.file n (some c)) (dropUnreadableList rest)
  | .lcons (.dir n es) rest => .lcons (.dir n (dropUnreadableList es)) (dropUnreadableList rest)
end

/-- A walk record whose file could be read. -/
def readableRec (r : WalkRec) : Bool :=
  r.2.2.isSome

/-! ### Local staging (`ArduboyManager.compile_local_sketch`) -/

/-- Outcome of the staging step of `compile_local_sketch`: the name of the
directory handed to the compiler, its regular-file listing, and the sketch
path used.  Errors are the user-visible warning texts. -/
def compile_local_sketch_staging (parentName : String)
    (parentFiles : List (String × String)) (fileName : String) :
    Except String (String × List (String × String) × String) :=
  let sketch_name := pathStem fileName
  if parentName = sketch_name then
    Except.ok (parentName, parentFiles, fileName)
  else
    let newIno := sketch_name ++ ".ino"
    match parentFiles.lookup fileName with
    | none => Except.error "Sketch file missing in temp directory."
    | some content =>
      let renamed :=
        (parentFiles.filter (fun f => f.1 ≠ newIno && f.1 ≠ fileName)) ++ [(newIno, content)]
      Except.ok (sketch_name, renamed, newIno)

/-! ### The compile thread (`CompileThread.run`) -/

/-- The text Python's `str` gives a `subprocess.CalledProcessError` with a
positive exit status. -/
def calledProcessErrorStr (cmd : String) (returncode : Nat) : String :=
  "Command \x27" ++ cmd ++ "\x27 returned non-zero exit status "
    ++ toString returncode ++ "."

/-- The `error_msg` built in the `except` branch of `CompileThread.run`:
the exception text plus the captured stdout and stderr, verbatim. -/
def compileErrorMessage (cmd : String) (returncode : Nat) (stdout stderr : String) : String :=
  "Failed to compile sketch: " ++ calledProcessErrorStr cmd returncode
    ++ "\nOutput:\n" ++ stdout ++ "\nError:\n" ++ stderr

/-- A name matched by `build_path.glob("*.hex")`: ends in `.hex` and is
not a dotfile (Python's glob skips names starting with a dot). -/
def globHexMatch (n : String) : Bool :=
  strEndsWith n ".hex" && !(strStartsWith n ".")

/-- The binary-locating step of `CompileThread.run`: prefer
`<sketch>.ino.hex`, otherwise the first `*.hex` of the build directory's
listing, otherwise nothing. -/
def locate_compiled_binary (buildFiles : List String) (sketch_name : String) : Option String :=
  if buildFiles.contains (sketch_name ++ ".ino.hex") then some (sketch_name ++ ".ino.hex")
  else (buildFiles.filter globHexMatch).head?

/-- `CompileThread.run`: the `(success, message)` pair the thread emits,
as a function of the compiler's exit status, its captured streams, and the
build directory's listing. -/
def compileThreadRun (cmd : String) (returncode : Nat) (stdout stderr : String)
    (buildFiles : List String) (sketch_name : String) : Bool × String :=
  if returncode = 0 then
    match locate_compiled_binary buildFiles sketch_name with
    | some p => (true, p)
    | none => (false, "No .hex file found in build directory.")
  else (false, compileErrorMessage cmd returncode stdout stderr)

/-- The user-visible side of `handle_compile_finished`: on failure the
message is shown in the error dialog unchanged; on success no error is
shown. -/
def handle_compile_finished_dialog (success : Bool) (message : String) : Option String :=
  if success then none else some message

/-! ### The `shutil.rmtree` error handler (`handle_remove_readonly`) -/

/-- The deletion primitive `shutil.rmtree` was calling when it failed. -/
inductive RmFunc where
  | rmdir
  | remove
  | unlink
  | scandir
deriving DecidableEq

/-- `errno.EACCES`. -/
def EACCES : Nat := 13

/-- Whether the failing function is one of `os.rmdir`, `os.remove`,
`os.unlink` (the tuple tested by `handle_remove_readonly`). -/
def isDeleteFunc (f : RmFunc) : Bool :=
  f = RmFunc.rmdir || f = RmFunc.remove || f = RmFunc.unlink

/-- State of one filesystem node during deletion: whether a restrictive
(read-only) attribute makes deletion fail with `EACCES`, and an optional
unrelated failure errno. -/
structure NodeState where
  readonly : Bool
  otherErrno : Option Nat

/-- One deletion attempt: a read-only node fails with `EACCES`, a node
with an unrelated problem fails with that errno, otherwise it is deleted. -/
def attemptDelete (f : NodeState) : Except Nat Unit :=
  if f.readonly then Except.error EACCES
  else
    match f.otherErrno with
    | some e => Except.error e
    | none => Except.ok ()

/-- `os.chmod(path, stat.S_IRWXU | stat.S_IRWXG | stat.S_IRWXO)`: clears
the restrictive attribute. -/
def chmodRwx (f : NodeState) : NodeState :=
  NodeState.mk false f.otherErrno

/-- `ArduboyManager.handle_remove_readonly`: on `EACCES` from a deletion
function, chmod and retry that one deletion; anything else re-raises. -/
def handle_remove_readonly (func : RmFunc) (e : Nat) (f : NodeState) : Except Nat Unit :=
  if isDeleteFunc func && e = EACCES then attemptDelete (chmodRwx f)
  else Except.error e

/-- One node's deletion as `shutil.rmtree(..., onerror=handle_remove_readonly)`
performs it, together with how many deletion attempts were made. -/
def rmtreeDeleteOne (func : RmFunc) (f : NodeState) : Except Nat Unit × Nat :=
  match attemptDelete f with
  | Except.ok _ => (Except.ok (), 1)
  | Except.error e =>
    (handle_remove_readonly func e f,
      if isDeleteFunc func && e = EACCES then 2 else 1)

/-! ### Remote-build orchestration (`compile_remote_sketch` →
`handle_clone_finished` → `handle_compile_finished`) -/

/-- Terminal outcome of one remote build job. -/
inductive JobEnd where
  | cloneFailed
  | noSketchFound
  | compileFailed (msg : String)
  | succeeded (artifact : String)
deriving DecidableEq

/-- Everything the environment decides for one remote build: whether the
clone exits zero, whether a failed clone leaves the target directory
behind, the cloned tree, the compiler's exit status and captured streams,
and the build directory's listing after compilation. -/
structure RemoteEnv where
  cloneOk : Bool
  cloneFailLeftDir : Bool
  clonedTree : FsEntry
  compileReturncode : Nat
  compileStdout : String
  compileStderr : String
  buildFiles : List String

/-- One remote build job, from `compile_remote_sketch` to its end, returning
the terminal outcome and whether the `temp_clone` staging directory still
exists when the job ends.  Cleanup happens only inside
`handle_compile_finished`; the clone-failure and no-sketch-found returns in
`handle_clone_finished` perform none. -/
def runRemoteJob (env : RemoteEnv) : JobEnd × Bool :=
  if env.cloneOk then
    match find_sketch_file env.clonedTree with
    | none => (JobEnd.noSketchFound, true)
    | some r =>
      let renamed := rename_sketch_file env.clonedTree r
      let sketch_name := renamed.2.1.getLastD ""
      match compileThreadRun "arduino-cli compile" env.compileReturncode
          env.compileStdout env.compileStderr env.buildFiles sketch_name with
      | (true, artifact) => (JobEnd.succeeded artifact, false)
      | (false, msg) => (JobEnd.compileFailed msg, false)
  else (JobEnd.cloneFailed, env.cloneFailLeftDir)

/-- How one walk record changes when the file at `q` named `old` is
renamed to `new` (replacing any file already named `new` there): used to
describe the walk of a tree after `renameInTree`. -/
def renMap (q : List String) (old new : String) (r : WalkRec) : Option WalkRec :=
  if r.1 = q then
    if r.2.1 = old then some (q, new, r.2.2)
    else if r.2.1 = new then none
    else some r
  else some r

/-! ### Concrete inputs used to evaluate the theorems -/

/-- A staged tree with exactly one qualifying sketch among decoys: a file
with both markers but the wrong extension, an `.ino` with one marker, the
qualifying `.ino` (markers in upper case), and an `.ino` with no markers. -/
def exampleTree : FsEntry :=
  FsEntry.dir "temp_clone"
    (FsListing.lcons (FsEntry.file "readme.md" (some "setup( loop("))
    (FsListing.lcons (FsEntry.file "half.ino" (some "setup( but nothing else"))
    (FsListing.lcons (FsEntry.file "good.ino" (some "void SETUP( void LOOP("))
    (FsListing.lcons (FsEntry.file "late.ino" (some "neither marker"))
    FsListing.lnil))))

/-- `exampleTree` with an unreadable `.ino` decoy in front of the
qualifying file. -/
def exampleTreeUnreadable : FsEntry :=
  FsEntry.dir "temp_clone"
    (FsListing.lcons (FsEntry.file "broken.ino" none)
    (FsListing.lcons (FsEntry.file "good.ino" (some "void SETUP( void LOOP("))
    FsListing.lnil))

/-- Two qualifying sketches whose listing order is not lexicographic. -/
def orderTreeBA : FsEntry :=
  FsEntry.dir "temp_clone"
    (FsListing.lcons (FsEntry.file "b.ino" (some "setup( loop("))
    (FsListing.lcons (FsEntry.file "a.ino" (some "setup( loop("))
    FsListing.lnil))

/-- The same two files with the listing enumerated in the other
(lexicographic) order. -/
def orderTreeAB : FsEntry :=
  FsEntry.dir "temp_clone"
    (FsListing.lcons (FsEntry.file "a.ino" (some "setup( loop("))
    (FsListing.lcons (FsEntry.file "b.ino" (some "setup( loop("))
    FsListing.lnil))

/-- A staged tree whose unique qualifying sketch is not yet named after its
parent directory. -/
def renameTree : FsEntry :=
  FsEntry.dir "temp_clone"
    (FsListing.lcons (FsEntry.file "bar.ino" (some "setup( loop("))
    (FsListing.lcons (FsEntry.file "notes.txt" (some "x"))
    FsListing.lnil))

/-- A remote-build environment whose clone succeeds but whose cloned tree
holds no qualifying sketch file. -/
def noSketchEnv : RemoteEnv :=
  RemoteEnv.mk true false
    (FsEntry.dir "temp_clone"
      (FsListing.lcons (FsEntry.file "readme.md" (some "no markers here"))
      FsListing.lnil))
    0 "" "" []

/-- A remote-build environment that reaches compilation and fails there. -/
def compileFailEnv : RemoteEnv :=
  RemoteEnv.mk true false exampleTree 1 "compiler out" "compiler err" []

/-- A remote-build environment that reaches compilation and succeeds. -/
def compileOkEnv : RemoteEnv :=
  RemoteEnv.mk true false exampleTree 0 "" "" ["temp_clone.ino.hex"]

/-! ## Helper lemmas: strings -/

theorem charsPref_self_append (s y : List Char) : charsPref s (s ++ y) = true := by
  induction s with
  | nil => rfl
  | cons a as ih => simp [charsPref, ih]

theorem charsPref_extend (s x y : List Char) (h : charsPref s x = true) :
    charsPref s (x ++ y) = true := by
  induction s generalizing x with
  | nil => rfl
  | cons a as ih =>
    cases x with
    | nil => simp [charsPref] at h
    | cons b bs =>
      simp only [charsPref, Bool.and_eq_true] at h
      simp [charsPref, h.1, ih bs h.2]

theorem charsContains_nil_sub (l : List Char) : charsContains l [] = true := by
  cases l <;> simp [charsContains, charsPref]

theorem charsContains_self_append (s y : List Char) : charsContains (s ++ y) s = true := by
  cases s with
  | nil => simpa using charsContains_nil_sub y
  | cons a as =>
    have h : charsPref (a :: as) (a :: (as ++ y)) = true := by
      simpa using charsPref_self_append (a :: as) y
    simp [charsContains, h]

theorem charsContains_append_right (x y s : List Char) (h : charsContains y s = true) :
    charsContains (x ++ y) s = true := by
  induction x with
  | nil => simpa using h
  | cons a as ih =>
    simp only [List.cons_append, charsContains, Bool.or_eq_true]
    exact Or.inr ih

theorem charsContains_append_left (x y s : List Char) (h : charsContains x s = true) :
    charsContains (x ++ y) s = true := by
  induction x with
  | nil =>
    have hs : s = [] := by
      cases s with
      | nil => rfl
      | cons a as => simp [charsContains, charsPref] at h
    subst hs
    exact charsContains_nil_sub _
  | cons a as ih =>
    simp only [charsContains, Bool.or_eq_true] at h
    rcases h with h | h
    · simp only [List.cons_append, charsContains, Bool.or_eq_true]
      exact Or.inl (by simpa using charsPref_extend s (a :: as) y h)
    · simp only [List.cons_append, charsContains, Bool.or_eq_true]
      exact Or.inr (ih h)

theorem strContainsSub_append_right (x y s : String) (h : strContainsSub y s = true) :
    strContainsSub (x ++ y) s = true := by
  unfold strContainsSub at *
  rw [String.data_append]
  exact charsContains_append_right _ _ _ h

theorem strContainsSub_append_left (x y s : String) (h : strContainsSub x s = true) :
    strContainsSub (x ++ y) s = true := by
  unfold strContainsSub at *
  rw [String.data_append]
  exact charsContains_append_left _ _ _ h

theorem strContainsSub_self_append (s y : String) : strContainsSub (s ++ y) s = true := by
  unfold strContainsSub
  rw [String.data_append]
  exact charsContains_self_append _ _

theorem strContainsSub_self (s : String) : strContainsSub s s = true := by
  have := strContainsSub_self_append s ""
  simpa using this

theorem strEndsWith_append (x s : String) : strEndsWith (x ++ s) s = true := by
  unfold strEndsWith
  rw [String.data_append, List.reverse_append]
  exact charsPref_self_append _ _

/-! ## Helper lemmas: lists -/

theorem find?_eq_head_filter {α : Type} (p : α → Bool) (l : List α) :
    l.find? p = (l.filter p).head? := by
  induction l with
  | nil => rfl
  | cons a t ih =>
    by_cases h : p a
    · rw [List.find?_cons_of_pos _ h, List.filter_cons_of_pos h]
      rfl
    · rw [List.find?_cons_of_neg _ (by simpa using h),
        List.filter_cons_of_neg (by simpa using h)]
      exact ih

theorem filterMap_eq_self_of {α : Type} (f : α → Option α) (l : List α)
    (h : ∀ x ∈ l, f x = some x) : l.filterMap f = l := by
  induction l with
  | nil => rfl
  | cons a t ih =>
    rw [List.filterMap_cons, h a (List.mem_cons_self a t)]
    rw [ih (fun x hx => h x (List.mem_cons_of_mem a hx))]

/-! ## Flag derivation lemmas -/

theorem variant_flags_eq_spec (v : String) : variant_flags v = spec_variant_flag v := by
  unfold variant_flags variant_flags_table spec_variant_flag
  by_cases h1 : v = "Arduino Leonardo"
  · simp [List.lookup, h1]
  · by_cases h2 : v = "Arduino/Genuino Micro"
    · simp [List.lookup, h1, h2]
    · by_cases h3 : v = "Pro Micro 5V Standard Wiring"
      · simp [List.lookup, h1, h2, h3]
      · by_cases h4 : v = "Arduino Pro Micro Alternate Wiring"
        · simp [List.lookup, h1, h2, h3, h4]
        · simp [List.lookup, h1, h2, h3, h4, beq_eq_false_iff_ne.mpr h1,
            beq_eq_false_iff_ne.mpr h2, beq_eq_false_iff_ne.mpr h3,
            beq_eq_false_iff_ne.mpr h4]

theorem display_flags_eq_spec (d : String) : display_flags d = spec_display_flag d := by
  unfold display_flags display_flags_table spec_display_flag
  by_cases h1 : d = "SH1106"
  · simp [List.lookup, h1]
  · by_cases h2 : d = "SSD1306"
    · simp [List.lookup, h1, h2]
    · by_cases h3 : d = "SSD1309"
      · simp [List.lookup, h1, h2, h3]
      · simp [List.lookup, h1, h2, h3, beq_eq_false_iff_ne.mpr h1,
          beq_eq_false_iff_ne.mpr h2, beq_eq_false_iff_ne.mpr h3]

theorem flash_flags_eq_spec (f : String) : flash_flags f = spec_flash_flag f := by
  unfold flash_flags flash_flags_table spec_flash_flag
  by_cases h1 : f = "Pin2/D1/SDA"
  · simp [List.lookup, h1]
  · by_cases h2 : f = "Pin0/D0/Rx"
    · simp [List.lookup, h1, h2]
    · simp [List.lookup, h1, h2, beq_eq_false_iff_ne.mpr h1, beq_eq_false_iff_ne.mpr h2]

/-- C2: flag derivation is a pure, total, deterministic function of the
three configuration selections.  `get_build_flags` maps each selection
through its own lookup table, falls back to the documented default when
the selection is absent from its table (variant → the Pro Micro flag,
display → the SSD1306 flag, flash chip → the SDA-pin flag), and returns
the three resolved strings plus the two fixed vendor/product-ID flags
concatenated, space-separated, into the single `build.extra_flags`
build-property value.  `spec_variant_flag`/`spec_display_flag`/
`spec_flash_flag` are the spec's documented tables with their defaults. -/
theorem get_build_flags_matches_documented_tables (variant display flash_chip : String) :
    get_build_flags variant display flash_chip =
      ("--build-property",
        "build.extra_flags=" ++ spec_variant_flag variant ++ " "
          ++ spec_display_flag display ++ " " ++ spec_flash_flag flash_chip
          ++ " -DUSB_VID=0x2341 " ++ "-DUSB_PID=0x8036") := by
  unfold get_build_flags
  rw [variant_flags_eq_spec, display_flags_eq_spec, flash_flags_eq_spec]

/-! ## Walk enumeration lemmas -/

theorem FsListing.crec {motive : FsListing → Prop} (h0 : motive FsListing.lnil)
    (h1 : ∀ e rest, motive rest → motive (FsListing.lcons e rest)) : ∀ l, motive l
  | .lnil => h0
  | .lcons e rest => h1 e rest (FsListing.crec h0 h1 rest)

theorem filesAt_path (path : List String) (l : FsListing) :
    ∀ r ∈ filesAt path l, r.1 = path := by
  induction l using FsListing.crec with
  | h0 => intro r hr; simp [filesAt] at hr
  | h1 e rest ih =>
    intro r hr
    cases e with
    | file n c =>
      rw [filesAt] at hr
      rcases List.mem_cons.mp hr with h | h
      · rw [h]
      · exact ih r h
    | dir n es =>
      rw [filesAt] at hr
      exact ih r hr

mutual
theorem walkEntry_shape (t : FsEntry) : ∀ (path : List String) (r : WalkRec),
    r ∈ walkEntry path t → ∃ n u, r.1 = path ++ n :: u := by
  match t with
  | .file n c => intro path r hr; simp [walkEntry] at hr
  | .dir n es =>
    intro path r hr
    rw [walkEntry] at hr
    rcases List.mem_append.mp hr with h | h
    · exact ⟨n, [], by simpa using filesAt_path _ _ r h⟩
    · obtain ⟨m, u, hu⟩ := walkSubs_shape es (path ++ [n]) r h
      exact ⟨n, m :: u, by simpa [List.append_assoc] using hu⟩

theorem walkSubs_shape (l : FsListing) : ∀ (path : List String) (r : WalkRec),
    r ∈ walkSubs path l → ∃ n u, r.1 = path ++ n :: u := by
  match l with
  | .lnil => intro path r hr; simp [walkSubs] at hr
  | .lcons e rest =>
    intro path r hr
    rw [walkSubs] at hr
    rcases List.mem_append.mp hr with h | h
    · exact walkEntry_shape e path r h
    · exact walkSubs_shape rest path r h
end

theorem walkEntry_dir_shape (n : String) (es : FsListing) (path : List String) (r : WalkRec)
    (hr : r ∈ walkEntry path (.dir n es)) : ∃ u, r.1 = path ++ n :: u := by
  rw [walkEntry] at hr
  rcases List.mem_append.mp hr with h | h
  · exact ⟨[], by simpa using filesAt_path _ _ r h⟩
  · obtain ⟨m, u, hu⟩ := walkSubs_shape es (path ++ [n]) r h
    exact ⟨m :: u, by simpa [List.append_assoc] using hu⟩

theorem walkSubs_path_ne (l : FsListing) (path : List String) (r : WalkRec)
    (hr : r ∈ walkSubs path l) : r.1 ≠ path := by
  obtain ⟨n, u, hu⟩ := walkSubs_shape l path r hr
  intro contra
  rw [contra] at hu
  have := congrArg List.length hu
  simp [List.length_append] at this

/-! ## Unreadable-file lemmas (discovery skips read errors) -/

theorem filesAt_drop (path : List String) (l : FsListing) :
    filesAt path (dropUnreadableList l) = (filesAt path l).filter readableRec := by
  induction l using FsListing.crec with
  | h0 => rfl
  | h1 e rest ih =>
    cases e with
    | file n c =>
      cases c with
      | none => simpa [dropUnreadableList, filesAt, List.filter_cons, readableRec] using ih
      | some s => simpa [dropUnreadableList, filesAt, List.filter_cons, readableRec] using ih
    | dir n es => simpa [dropUnreadableList, filesAt] using ih

mutual
theorem walkEntry_drop (t : FsEntry) : ∀ path : List String,
    walkEntry path (dropUnreadableEntry t) = (walkEntry path t).filter readableRec := by
  match t with
  | .file n c => intro path; cases c <;> simp [dropUnreadableEntry, walkEntry]
  | .dir n es =>
    intro path
    rw [dropUnreadableEntry, walkEntry, walkEntry, List.filter_append, filesAt_drop,
      walkSubs_drop es (path ++ [n])]

theorem walkSubs_drop (l : FsListing) : ∀ path : List String,
    walkSubs path (dropUnreadableList l) = (walkSubs path l).filter readableRec := by
  match l with
  | .lnil => intro path; simp [dropUnreadableList, walkSubs]
  | .lcons e rest =>
    intro path
    have he := walkEntry_drop e
    have hr := walkSubs_drop rest
    cases e with
    | file fn fc =>
      cases fc with
      | none =>
        rw [dropUnreadableList, hr path, walkSubs, walkEntry]
        simp [List.filter_append]
      | some s =>
        rw [dropUnreadableList, walkSubs, walkSubs, walkEntry, List.filter_append, hr path]
        simp
    | dir dn des =>
      rw [dropUnreadableList, walkSubs, walkSubs, List.filter_append, ← hr path]
      have : FsEntry.dir dn (dropUnreadableList des) = dropUnreadableEntry (.dir dn des) := by
        rw [dropUnreadableEntry]
      rw [this, he path]
end

theorem qualifies_readable (r : WalkRec) (h : qualifiesRec r = true) : readableRec r = true := by
  unfold qualifiesRec at h
  unfold readableRec
  rcases r with ⟨p, n, c⟩
  cases c with
  | none => simp at h
  | some s => rfl

theorem find?_filter_of_imp {α : Type} (p q : α → Bool) (l : List α)
    (himp : ∀ x, q x = true → p x = true) :
    (l.filter p).find? q = l.find? q := by
  induction l with
  | nil => rfl
  | cons a t ih =>
    by_cases hq : q a = true
    · rw [List.filter_cons_of_pos (himp a hq), List.find?_cons_of_pos _ hq,
        List.find?_cons_of_pos _ hq]
    · by_cases hp : p a = true
      · rw [List.filter_cons_of_pos hp, List.find?_cons_of_neg _ (by simpa using hq),
          List.find?_cons_of_neg _ (by simpa using hq)]
        exact ih
      · rw [List.filter_cons_of_neg (by simpa using hp),
          List.find?_cons_of_neg _ (by simpa using hq)]
        exact ih

/-- C10: an unreadable candidate never aborts discovery and never makes
`find_sketch_file` raise: discovery on any tree returns exactly what it
returns on the same tree with every unreadable file removed (so the search
skips unreadable candidates and still finds a later qualifying file or
reports none), and a returned record is always one that was readable. -/
theorem find_sketch_file_skips_unreadable (t : FsEntry) :
    find_sketch_file (dropUnreadableEntry t) = find_sketch_file t ∧
    (find_sketch_file t).all readableRec = true := by
  constructor
  · unfold find_sketch_file
    rw [walkEntry_drop t []]
    exact find?_filter_of_imp readableRec qualifiesRec _ qualifies_readable
  · unfold find_sketch_file
    cases hf : (walkEntry [] t).find? qualifiesRec with
    | none => rfl
    | some r =>
      have hq := List.find?_some hf
      simpa [Option.all] using qualifies_readable r hq

/-- C3: entry-file discovery returns the first file, in `os.walk`
enumeration order, that has the `.ino` extension and whose content
(case-insensitively, via `qualifiesRec`) contains both the `setup(` and
`loop(` markers — first match wins, with no scoring; when exactly one file
qualifies it is the one returned, and when none qualifies the result is
`none` (the `NotFoundError` outcome). -/
theorem find_sketch_file_first_match (t : FsEntry) :
    find_sketch_file t = ((walkEntry [] t).filter qualifiesRec).head? ∧
    ((walkEntry [] t).filter qualifiesRec = [] → find_sketch_file t = none) ∧
    (∀ r : WalkRec, (walkEntry [] t).filter qualifiesRec = [r] →
      find_sketch_file t = some r) := by
  unfold find_sketch_file
  refine ⟨find?_eq_head_filter _ _, ?_, ?_⟩
  · intro h
    rw [find?_eq_head_filter, h]
    rfl
  · intro r h
    rw [find?_eq_head_filter, h]
    rfl

/-- Witness for C3 at `exampleTree`: `good.ino` is the unique qualifying
file and discovery returns it. -/
theorem find_sketch_file_first_match_witness :
    (walkEntry [] exampleTree).filter qualifiesRec
        = [(["temp_clone"], "good.ino", some "void SETUP( void LOOP(")] ∧
    find_sketch_file exampleTree
        = some (["temp_clone"], "good.ino", some "void SETUP( void LOOP(") :=
  ⟨by decide, (find_sketch_file_first_match exampleTree).2.2 _ (by decide)⟩

/-- C9 (amended): discovery is deterministic as a function of the staged
tree together with its OS-provided listing order — it returns the first
qualifying file of the `os.walk` enumeration.  The code never sorts a
directory listing, so the within-directory visiting order is the OS
enumeration order, not lexicographic. -/
theorem find_sketch_file_follows_walk_order (t : FsEntry) :
    find_sketch_file t = ((walkEntry [] t).filter qualifiesRec).head? := by
  unfold find_sketch_file
  exact find?_eq_head_filter _ _

/-- C9 counterexample: two staged trees holding exactly the same files
(their walks are permutations of one another) whose listings enumerate in
different orders.  Discovery returns `b.ino` on the non-lexicographic
listing and `a.ino` on the lexicographically sorted one — so the visiting
order is not lexicographic within a directory, and discovery over "the
same directory tree" differs when the OS enumerates it differently. -/
theorem find_sketch_file_order_dependent :
    (walkEntry [] orderTreeBA).isPerm (walkEntry [] orderTreeAB) = true ∧
    find_sketch_file orderTreeBA
        = some (["temp_clone"], "b.ino", some "setup( loop(") ∧
    find_sketch_file orderTreeAB
        = some (["temp_clone"], "a.ino", some "setup( loop(") ∧
    find_sketch_file orderTreeBA ≠ find_sketch_file orderTreeAB :=
  ⟨by decide, by decide, by decide, by decide⟩

/-! ## Rename lemmas -/

theorem ne_append_cons (p : List String) (d : String) (ds : List String) :
    p ≠ p ++ d :: ds := by
  intro h
  have := congrArg List.length h
  simp [List.length_append] at this

theorem filesAt_renameListing (old new : String) (path : List String) (l : FsListing) :
    filesAt path (renameListing old new l)
      = (filesAt path l).filterMap (renMap path old new) := by
  induction l using FsListing.crec with
  | h0 => rfl
  | h1 e rest ih =>
    cases e with
    | file n c =>
      by_cases h1 : n = old
      · simp [renameListing, filesAt, List.filterMap_cons, renMap, h1, ih]
      · by_cases h2 : n = new
        · have hno : ¬new = old := by rw [← h2]; exact h1
          simp [renameListing, filesAt, List.filterMap_cons, renMap, h1, h2, hno, ih]
        · simp [renameListing, filesAt, List.filterMap_cons, renMap, h1, h2, ih]
    | dir n es => simp [renameListing, filesAt, ih]

theorem walkSubs_renameListing (old new : String) (path : List String) (l : FsListing) :
    walkSubs path (renameListing old new l) = walkSubs path l := by
  induction l using FsListing.crec with
  | h0 => rfl
  | h1 e rest ih =>
    cases e with
    | file n c =>
      by_cases h1 : n = old
      · simp [renameListing, walkSubs, walkEntry, h1, ih]
      · by_cases h2 : n = new
        · have hno : ¬new = old := by rw [← h2]; exact h1
          simp [renameListing, walkSubs, walkEntry, h1, h2, hno, ih]
        · simp [renameListing, walkSubs, walkEntry, h1, h2, ih]
    | dir n es => simp [renameListing, walkSubs, ih]

theorem filterMap_renMap_walkSubs (old new : String) (path : List String) (l : FsListing) :
    (walkSubs path l).filterMap (renMap path old new) = walkSubs path l := by
  refine filterMap_eq_self_of _ _ (fun r hr => ?_)
  unfold renMap
  rw [if_neg (walkSubs_path_ne l path r hr)]

theorem filesAt_descendInto (d : String) (f : FsListing → FsListing) (path : List String)
    (l : FsListing) : filesAt path (descendInto d f l) = filesAt path l := by
  induction l using FsListing.crec with
  | h0 => rfl
  | h1 e rest ih =>
    cases e with
    | file n c => simp [descendInto, filesAt, ih]
    | dir n es => simp [descendInto, filesAt, ih]

theorem filterMap_renMap_filesAt (old new : String) (path : List String) (d : String)
    (ds : List String) (l : FsListing) :
    (filesAt path l).filterMap (renMap (path ++ d :: ds) old new) = filesAt path l := by
  refine filterMap_eq_self_of _ _ (fun r hr => ?_)
  unfold renMap
  rw [filesAt_path path l r hr, if_neg (ne_append_cons path d ds)]

theorem cons_eq_of_append_cons_eq {p : List String} {n d : String} {u ds : List String}
    (h : p ++ n :: u = p ++ d :: ds) : n = d := by
  have := congrArg (List.drop p.length) h
  rw [List.drop_left, List.drop_left] at this
  exact (List.cons.injEq _ _ _ _ ▸ this).1

theorem walkDirList_renameAtPath (old new : String) :
    ∀ (rel : List String) (l : FsListing) (path : List String),
      filesAt path (renameAtPath old new rel l) ++ walkSubs path (renameAtPath old new rel l)
        = (filesAt path l ++ walkSubs path l).filterMap (renMap (path ++ rel) old new) := by
  intro rel
  induction rel with
  | nil =>
    intro l path
    simp only [renameAtPath, List.append_nil]
    rw [List.filterMap_append, filesAt_renameListing, walkSubs_renameListing,
      filterMap_renMap_walkSubs]
  | cons d ds ih =>
    intro l path
    simp only [renameAtPath]
    rw [List.filterMap_append, filesAt_descendInto, filterMap_renMap_filesAt]
    have hsubs : walkSubs path (descendInto d (renameAtPath old new ds) l)
        = (walkSubs path l).filterMap (renMap (path ++ d :: ds) old new) := by
      induction l using FsListing.crec with
      | h0 => simp [descendInto, walkSubs]
      | h1 e rest ihl =>
        cases e with
        | file n c =>
          simp only [descendInto, walkSubs, walkEntry, List.nil_append, List.filterMap_append]
          rw [ihl]
        | dir n es =>
          by_cases hnd : n = d
          · subst hnd
            have happ : (path ++ [n]) ++ ds = path ++ n :: ds := by simp
            have hent : walkEntry path (FsEntry.dir n (renameAtPath old new ds es))
                = (walkEntry path (FsEntry.dir n es)).filterMap
                    (renMap (path ++ n :: ds) old new) := by
              simp only [walkEntry, List.filterMap_append]
              rw [← List.filterMap_append, ← happ]
              exact ih es (path ++ [n])
            simp only [descendInto, walkSubs, List.filterMap_append]
            rw [if_true, ihl, hent]
          · have hent : (walkEntry path (FsEntry.dir n es)).filterMap
                (renMap (path ++ d :: ds) old new) = walkEntry path (FsEntry.dir n es) := by
              refine filterMap_eq_self_of _ _ (fun r hr => ?_)
              unfold renMap
              rw [if_neg ?_]
              obtain ⟨u, hu⟩ := walkEntry_dir_shape n es path r hr
              rw [hu]
              intro hcontra
              exact hnd (cons_eq_of_append_cons_eq hcontra)
            simp only [descendInto, walkSubs, List.filterMap_append]
            rw [if_neg hnd, ihl, hent]
    rw [hsubs]

theorem walkEntry_renameInTree (old new rn : String) (es : FsListing) (rel : List String) :
    walkEntry [] (renameInTree old new (rn :: rel) (FsEntry.dir rn es))
      = (walkEntry [] (FsEntry.dir rn es)).filterMap (renMap (rn :: rel) old new) := by
  simp only [renameInTree, walkEntry, List.nil_append]
  have := walkDirList_renameAtPath old new rel es [rn]
  simpa using this

theorem renMap_none_or_self (p : List String) (old new : String) (x : WalkRec)
    (hk : (x.1, x.2.1) ≠ (p, old)) :
    renMap p old new x = none ∨ renMap p old new x = some x := by
  by_cases h1 : x.1 = p
  · by_cases h2 : x.2.1 = old
    · exact absurd (by rw [h1, h2]) hk
    · by_cases h3 : x.2.1 = new
      · left
        have hno : ¬new = old := fun hc => h2 (h3.trans hc)
        simp [renMap, h1, h2, h3, hno]
      · right
        simp [renMap, h1, h2, h3]
  · right
    simp [renMap, h1]

theorem renFilter_nil (p : List String) (old new : String) (l : List WalkRec)
    (h : ∀ x ∈ l, qualifiesRec x = false ∧ (x.1, x.2.1) ≠ (p, old)) :
    (l.filterMap (renMap p old new)).filter qualifiesRec = [] := by
  induction l with
  | nil => rfl
  | cons x xs ih =>
    obtain ⟨hq, hk⟩ := h x (List.mem_cons_self x xs)
    have ihr := ih (fun y hy => h y (List.mem_cons_of_mem x hy))
    rw [List.filterMap_cons]
    rcases renMap_none_or_self p old new x hk with hm | hm
    · rw [hm]
      exact ihr
    · rw [hm, List.filter_cons_of_neg (by simp [hq])]
      exact ihr

theorem renFilter_singleton (p : List String) (old new : String) (c : Option String)
    (l : List WalkRec)
    (hnewq : qualifiesRec (p, new, c) = true)
    (hkeys : ∀ x ∈ l, x ≠ (p, old, c) → (x.1, x.2.1) ≠ (p, old))
    (hfil : l.filter qualifiesRec = [(p, old, c)]) :
    (l.filterMap (renMap p old new)).filter qualifiesRec = [(p, new, c)] := by
  induction l with
  | nil => simp at hfil
  | cons x xs ih =>
    by_cases hx : qualifiesRec x = true
    · rw [List.filter_cons_of_pos hx] at hfil
      have hx0 : x = (p, old, c) := (List.cons_eq_cons.mp hfil).1
      have hrest : xs.filter qualifiesRec = [] := (List.cons_eq_cons.mp hfil).2
      have hq0 : qualifiesRec (p, old, c) = true := hx0 ▸ hx
      rw [List.filterMap_cons, hx0]
      have hm : renMap p old new (p, old, c) = some (p, new, c) := by simp [renMap]
      rw [hm, List.filter_cons_of_pos hnewq]
      have hnil : (xs.filterMap (renMap p old new)).filter qualifiesRec = [] := by
        refine renFilter_nil p old new xs (fun y hy => ?_)
        have hyq : qualifiesRec y = false := by
          have := List.filter_eq_nil_iff.mp hrest y hy
          simpa using this
        refine ⟨hyq, ?_⟩
        have hyne : y ≠ (p, old, c) := by
          intro hcon
          rw [hcon] at hyq
          rw [hq0] at hyq
          simp at hyq
        exact hkeys y (List.mem_cons_of_mem x hy) hyne
      rw [hnil]
    · rw [List.filter_cons_of_neg (by simpa using hx)] at hfil
      have hmem : (p, old, c) ∈ xs.filter qualifiesRec := by
        rw [hfil]
        exact List.mem_singleton_self _
      have hq0 : qualifiesRec (p, old, c) = true := (List.mem_filter.mp hmem).2
      have hxne : x ≠ (p, old, c) := fun hcon => hx (by rw [hcon, hq0])
      have hkx := hkeys x (List.mem_cons_self x xs) hxne
      have ihr := ih (fun y hy hne => hkeys y (List.mem_cons_of_mem x hy) hne) hfil
      rw [List.filterMap_cons]
      rcases renMap_none_or_self p old new x hkx with hm | hm
      · rw [hm]
        exact ihr
      · rw [hm, List.filter_cons_of_neg (by simpa using hx)]
        exact ihr

/-- C4: on a staged tree (with distinct file paths, as on a real
filesystem) holding exactly one qualifying entry file, running the Locator
(`find_sketch_file` followed by `rename_sketch_file`) yields a file whose
base name minus its `.ino` extension equals its parent directory's name,
and running the Locator a second time on the resulting tree is a no-op:
it returns the same tree and the same file, leaving an already-matching
name untouched. -/
theorem locator_naming_invariant_idempotent (rn : String) (es : FsListing) (r0 : WalkRec)
    (hND : (walkEntry [] (FsEntry.dir rn es)).Pairwise
      (fun a b => (a.1, a.2.1) ≠ (b.1, b.2.1)))
    (hUnique : (walkEntry [] (FsEntry.dir rn es)).filter qualifiesRec = [r0]) :
    ∃ t' r', locate_and_rename (FsEntry.dir rn es) = some (t', r') ∧
      r'.2.1 = r'.1.getLastD "" ++ ".ino" ∧
      locate_and_rename t' = some (t', r') := by
  obtain ⟨p0, n0, c0⟩ := r0
  have hfind : find_sketch_file (FsEntry.dir rn es) = some (p0, n0, c0) := by
    unfold find_sketch_file
    rw [find?_eq_head_filter, hUnique]
    rfl
  have hmemfil : (p0, n0, c0) ∈ (walkEntry [] (FsEntry.dir rn es)).filter qualifiesRec := by
    rw [hUnique]
    exact List.mem_singleton_self _
  have hq0 : qualifiesRec (p0, n0, c0) = true := (List.mem_filter.mp hmemfil).2
  have hmem0 : (p0, n0, c0) ∈ walkEntry [] (FsEntry.dir rn es) := (List.mem_filter.mp hmemfil).1
  obtain ⟨u, hu⟩ := walkEntry_dir_shape rn es [] (p0, n0, c0) hmem0
  rw [List.nil_append] at hu
  have hu' : p0 = rn :: u := hu
  subst hu'
  by_cases hsame : n0 = (rn :: u).getLastD "" ++ ".ino"
  · refine ⟨FsEntry.dir rn es, (rn :: u, n0, c0), ?_, hsame, ?_⟩
    · unfold locate_and_rename
      rw [hfind]
      simp only [Option.map_some']
      unfold rename_sketch_file
      rw [if_pos hsame]
    · unfold locate_and_rename
      rw [hfind]
      simp only [Option.map_some']
      unfold rename_sketch_file
      rw [if_pos hsame]
  · have hwalk' : walkEntry []
        (renameInTree n0 ((rn :: u).getLastD "" ++ ".ino") (rn :: u) (FsEntry.dir rn es))
        = (walkEntry [] (FsEntry.dir rn es)).filterMap
            (renMap (rn :: u) n0 ((rn :: u).getLastD "" ++ ".ino")) :=
      walkEntry_renameInTree n0 ((rn :: u).getLastD "" ++ ".ino") rn es u
    have hnewq : qualifiesRec (rn :: u, (rn :: u).getLastD "" ++ ".ino", c0) = true := by
      unfold qualifiesRec at hq0 ⊢
      rw [Bool.and_eq_true] at hq0 ⊢
      exact ⟨strEndsWith_append _ _, hq0.2⟩
    have hkeys : ∀ x ∈ walkEntry [] (FsEntry.dir rn es), x ≠ (rn :: u, n0, c0) →
        (x.1, x.2.1) ≠ ((rn :: u, n0, c0).1, (rn :: u, n0, c0).2.1) := by
      intro x hx hne
      have hsym : Symmetric (fun a b : WalkRec => (a.1, a.2.1) ≠ (b.1, b.2.1)) :=
        fun a b h => Ne.symm h
      exact List.Pairwise.forall hsym hND hx hmem0 hne
    have hfilter' : ((walkEntry [] (FsEntry.dir rn es)).filterMap
        (renMap (rn :: u) n0 ((rn :: u).getLastD "" ++ ".ino"))).filter qualifiesRec
        = [(rn :: u, (rn :: u).getLastD "" ++ ".ino", c0)] :=
      renFilter_singleton (rn :: u) n0 ((rn :: u).getLastD "" ++ ".ino") c0 _
        hnewq hkeys hUnique
    have hfind' : find_sketch_file
        (renameInTree n0 ((rn :: u).getLastD "" ++ ".ino") (rn :: u) (FsEntry.dir rn es))
        = some (rn :: u, (rn :: u).getLastD "" ++ ".ino", c0) := by
      unfold find_sketch_file
      rw [find?_eq_head_filter, hwalk', hfilter']
      rfl
    refine ⟨renameInTree n0 ((rn :: u).getLastD "" ++ ".ino") (rn :: u) (FsEntry.dir rn es),
      (rn :: u, (rn :: u).getLastD "" ++ ".ino", c0), ?_, rfl, ?_⟩
    · unfold locate_and_rename
      rw [hfind]
      simp only [Option.map_some']
      unfold rename_sketch_file
      rw [if_neg hsame]
    · unfold locate_and_rename
      rw [hfind']
      simp only [Option.map_some']
      unfold rename_sketch_file
      rw [if_pos rfl]

/-- Witness for C4 at `renameTree`: the key-distinctness and uniqueness
hypotheses hold concretely, and the Locator renames `bar.ino` to
`temp_clone.ino`, idempotently. -/
theorem locator_naming_invariant_idempotent_witness :
    ((walkEntry [] renameTree).Pairwise (fun a b => (a.1, a.2.1) ≠ (b.1, b.2.1)) ∧
      (walkEntry [] renameTree).filter qualifiesRec
        = [(["temp_clone"], "bar.ino", some "setup( loop(")]) ∧
    (∃ t' r', locate_and_rename renameTree = some (t', r') ∧
      r'.2.1 = r'.1.getLastD "" ++ ".ino" ∧
      locate_and_rename t' = some (t', r')) :=
  ⟨⟨by decide, by decide⟩,
    locator_naming_invariant_idempotent "temp_clone"
      (FsListing.lcons (FsEntry.file "bar.ino" (some "setup( loop("))
        (FsListing.lcons (FsEntry.file "notes.txt" (some "x")) FsListing.lnil))
      (["temp_clone"], "bar.ino", some "setup( loop(") (by decide) (by decide)⟩

/-- C5: staging a local sketch whose parent directory name differs from the
file's stem creates a compile directory named after the stem, copies every
regular file of the parent directory into it, and renames the copied entry
file to `<stem>.<original extension>` (the extension is `.ino`, as the
file-picker filter guarantees), so the entry file's name matches its new
parent directory's name; if the expected entry file is missing from the
copied set, staging fails with the staging error. -/
theorem local_staging_mismatch (parentName : String) (parentFiles : List (String × String))
    (fileName : String)
    (hmismatch : parentName ≠ pathStem fileName)
    (hext : pathSuffix fileName = ".ino") :
    (∀ content, parentFiles.lookup fileName = some content →
      ∃ staged,
        compile_local_sketch_staging parentName parentFiles fileName
          = Except.ok (pathStem fileName, staged,
              pathStem fileName ++ pathSuffix fileName) ∧
        (pathStem fileName ++ pathSuffix fileName, content) ∈ staged ∧
        ∀ g ∈ parentFiles, g.1 ≠ fileName →
          g.1 ≠ pathStem fileName ++ pathSuffix fileName → g ∈ staged) ∧
    (parentFiles.lookup fileName = none →
      compile_local_sketch_staging parentName parentFiles fileName
        = Except.error "Sketch file missing in temp directory.") := by
  rw [hext]
  constructor
  · intro content hc
    refine ⟨(parentFiles.filter
        (fun f => f.1 ≠ (pathStem fileName ++ ".ino") && f.1 ≠ fileName))
        ++ [(pathStem fileName ++ ".ino", content)], ?_, ?_, ?_⟩
    · simp only [compile_local_sketch_staging, if_neg hmismatch, hc]
    · exact List.mem_append_right _ (List.mem_singleton_self _)
    · intro g hg h1 h2
      refine List.mem_append_left _ (List.mem_filter.mpr ⟨hg, ?_⟩)
      simp [h1, h2]
  · intro hnone
    simp only [compile_local_sketch_staging, if_neg hmismatch, hnone]

/-- Witness for C5: directory `Foo` holding `bar.ino` (with a sibling
`helper.h`): staging produces directory `bar` with entry `bar.ino` and the
sibling present. -/
theorem local_staging_mismatch_witness :
    ("Foo" ≠ pathStem "bar.ino") ∧ (pathSuffix "bar.ino" = ".ino") ∧
    (∃ staged,
      compile_local_sketch_staging "Foo"
          [("bar.ino", "setup( loop("), ("helper.h", "h")] "bar.ino"
        = Except.ok (pathStem "bar.ino", staged,
            pathStem "bar.ino" ++ pathSuffix "bar.ino") ∧
      (pathStem "bar.ino" ++ pathSuffix "bar.ino", "setup( loop(") ∈ staged ∧
      ∀ g ∈ [("bar.ino", "setup( loop("), ("helper.h", "h")], g.1 ≠ "bar.ino" →
        g.1 ≠ pathStem "bar.ino" ++ pathSuffix "bar.ino" → g ∈ staged) :=
  ⟨by decide, by decide,
    (local_staging_mismatch "Foo" [("bar.ino", "setup( loop("), ("helper.h", "h")]
      "bar.ino" (by decide) (by decide)).1 "setup( loop(" (by decide)⟩

/-- C6: every compiler invocation that exits nonzero makes the compile
thread emit a failure whose message is the `CompileError` text carrying
the exit status and the verbatim captured standard output and standard
error, and `handle_compile_finished` surfaces exactly that message to the
user-visible error dialog — never swallowed (the failure pair is always
produced) and never retried (the run is a pure function of one
invocation's outcome). -/
theorem compile_error_surfaced (cmd : String) (returncode : Nat) (stdout stderr : String)
    (buildFiles : List String) (sketch_name : String) (h : ¬returncode = 0) :
    compileThreadRun cmd returncode stdout stderr buildFiles sketch_name
        = (false, compileErrorMessage cmd returncode stdout stderr) ∧
    strContainsSub (compileErrorMessage cmd returncode stdout stderr) stdout = true ∧
    strContainsSub (compileErrorMessage cmd returncode stdout stderr) stderr = true ∧
    strContainsSub (compileErrorMessage cmd returncode stdout stderr)
        (toString returncode) = true ∧
    handle_compile_finished_dialog false (compileErrorMessage cmd returncode stdout stderr)
        = some (compileErrorMessage cmd returncode stdout stderr) := by
  refine ⟨?_, ?_, ?_, ?_, rfl⟩
  · unfold compileThreadRun
    rw [if_neg h]
  · unfold compileErrorMessage
    refine strContainsSub_append_left _ _ _ (strContainsSub_append_left _ _ _ ?_)
    exact strContainsSub_append_right _ _ _ (strContainsSub_self _)
  · exact strContainsSub_append_right _ _ _ (strContainsSub_self _)
  · unfold compileErrorMessage calledProcessErrorStr
    refine strContainsSub_append_left _ _ _ (strContainsSub_append_left _ _ _
      (strContainsSub_append_left _ _ _ (strContainsSub_append_left _ _ _ ?_)))
    refine strContainsSub_append_right _ _ _ ?_
    refine strContainsSub_append_left _ _ _ ?_
    exact strContainsSub_append_right _ _ _ (strContainsSub_self _)

/-- Witness for C6 at exit status 2 with concrete streams. -/
theorem compile_error_surfaced_witness :
    (¬(2 : Nat) = 0) ∧
    (compileThreadRun "arduino-cli compile" 2 "the out" "the err" [] "Game"
        = (false, compileErrorMessage "arduino-cli compile" 2 "the out" "the err") ∧
      strContainsSub (compileErrorMessage "arduino-cli compile" 2 "the out" "the err")
          "the out" = true ∧
      strContainsSub (compileErrorMessage "arduino-cli compile" 2 "the out" "the err")
          "the err" = true ∧
      strContainsSub (compileErrorMessage "arduino-cli compile" 2 "the out" "the err")
          (toString (2 : Nat)) = true ∧
      handle_compile_finished_dialog false
          (compileErrorMessage "arduino-cli compile" 2 "the out" "the err")
        = some (compileErrorMessage "arduino-cli compile" 2 "the out" "the err")) :=
  ⟨by decide, compile_error_surfaced "arduino-cli compile" 2 "the out" "the err" [] "Game"
    (by decide)⟩

/-- C7: artifact resolution first looks for `<sketch>.ino.hex` in the
build directory; if absent it falls back to the first `*.hex` of the build
directory's listing; if neither rule yields a file, no artifact is
produced and the thread emits the failure (`ArtifactNotFoundError`
outcome), even though the compiler exited zero. -/
theorem artifact_resolution_rules (buildFiles : List String) (sketch_name : String) :
    (buildFiles.contains (sketch_name ++ ".ino.hex") = true →
      locate_compiled_binary buildFiles sketch_name = some (sketch_name ++ ".ino.hex")) ∧
    (buildFiles.contains (sketch_name ++ ".ino.hex") = false →
      locate_compiled_binary buildFiles sketch_name
        = (buildFiles.filter globHexMatch).head?) ∧
    (buildFiles.contains (sketch_name ++ ".ino.hex") = false →
      buildFiles.filter globHexMatch = [] →
      locate_compiled_binary buildFiles sketch_name = none ∧
      ∀ cmd stdout stderr, compileThreadRun cmd 0 stdout stderr buildFiles sketch_name
        = (false, "No .hex file found in build directory.")) := by
  refine ⟨?_, ?_, ?_⟩
  · intro h
    unfold locate_compiled_binary
    rw [if_pos h]
  · intro h
    unfold locate_compiled_binary
    rw [if_neg (by simpa using h)]
  · intro h hfil
    have hloc : locate_compiled_binary buildFiles sketch_name = none := by
      unfold locate_compiled_binary
      rw [if_neg (by simpa using h), hfil]
      rfl
    refine ⟨hloc, fun cmd stdout stderr => ?_⟩
    unfold compileThreadRun
    rw [if_pos rfl, hloc]

/-- Witness for C7: with build listing `["other.hex"]` and project `Game`,
the primary name is absent and the fallback returns `other.hex`; with an
empty listing, resolution fails and the thread reports no artifact. -/
theorem artifact_resolution_rules_witness :
    ((["other.hex"].contains ("Game" ++ ".ino.hex") = false) ∧
      locate_compiled_binary ["other.hex"] "Game"
        = (["other.hex"].filter globHexMatch).head? ∧
      locate_compiled_binary ["other.hex"] "Game" = some "other.hex") ∧
    (([] : List String).contains ("Game" ++ ".ino.hex") = false ∧
      ([] : List String).filter globHexMatch = [] ∧
      locate_compiled_binary [] "Game" = none ∧
      compileThreadRun "arduino-cli compile" 0 "" "" [] "Game"
        = (false, "No .hex file found in build directory.")) :=
  ⟨⟨by decide, (artifact_resolution_rules ["other.hex"] "Game").2.1 (by decide), by decide⟩,
   ⟨by decide, by decide,
    ((artifact_resolution_rules [] "Game").2.2 (by decide) (by decide)).1,
    ((artifact_resolution_rules [] "Game").2.2 (by decide) (by decide)).2
      "arduino-cli compile" "" ""⟩⟩

/-- C8: during staging-directory deletion, a permission-denied (`EACCES`)
failure of an individual deletion (`os.rmdir`/`os.remove`/`os.unlink`) is
handled by clearing the restrictive attribute and retrying that single
deletion exactly once (two attempts total, succeeding when the read-only
bit was the only problem); a deletion failure with any other errno — or an
`EACCES` from a non-deletion function — propagates without any retry, and
no node is ever attempted more than twice. -/
theorem remove_readonly_policy (func : RmFunc) (f : NodeState) :
    (isDeleteFunc func = true → f.readonly = true → f.otherErrno = none →
      rmtreeDeleteOne func f = (Except.ok (), 2)) ∧
    (∀ e, f.readonly = false → f.otherErrno = some e → ¬e = EACCES →
      rmtreeDeleteOne func f = (Except.error e, 1)) ∧
    (∀ e, isDeleteFunc func = true → f.readonly = true → f.otherErrno = some e →
      rmtreeDeleteOne func f = (Except.error e, 2)) ∧
    (isDeleteFunc func = false → f.readonly = true →
      rmtreeDeleteOne func f = (Except.error EACCES, 1)) ∧
    (rmtreeDeleteOne func f).2 ≤ 2 := by
  refine ⟨?_, ?_, ?_, ?_, ?_⟩
  · intro hdel hro hoth
    unfold rmtreeDeleteOne attemptDelete handle_remove_readonly chmodRwx
    rw [hro]
    simp [hdel, hoth, attemptDelete, EACCES]
  · intro e hro hoth hne
    unfold rmtreeDeleteOne attemptDelete handle_remove_readonly
    rw [hro]
    simp [hoth, hne]
  · intro e hdel hro hoth
    unfold rmtreeDeleteOne attemptDelete handle_remove_readonly chmodRwx
    rw [hro]
    simp [hdel, hoth, attemptDelete, EACCES]
  · intro hdel hro
    unfold rmtreeDeleteOne attemptDelete handle_remove_readonly
    rw [hro]
    simp [hdel]
  · unfold rmtreeDeleteOne
    cases attemptDelete f with
    | ok _ => simp
    | error e =>
      by_cases hc : isDeleteFunc func && e = EACCES
      · simp [hc]
      · simp [hc]

/-- Witness for C8: a read-only node with no other problem, deleted by
`os.remove`, is recovered with exactly one retry; an `EPERM` (errno 1)
failure propagates with no retry. -/
theorem remove_readonly_policy_witness :
    (isDeleteFunc RmFunc.remove = true ∧
      rmtreeDeleteOne RmFunc.remove (NodeState.mk true none) = (Except.ok (), 2)) ∧
    (rmtreeDeleteOne RmFunc.remove (NodeState.mk false (some 1))
        = (Except.error 1, 1)) :=
  ⟨⟨by decide, (remove_readonly_policy RmFunc.remove (NodeState.mk true none)).1
      (by decide) rfl rfl⟩,
    (remove_readonly_policy RmFunc.remove (NodeState.mk false (some 1))).2.1 1 rfl rfl
      (by decide)⟩

/-- C1 counterexample: a remote job whose clone succeeds but whose cloned
tree holds no qualifying entry file ends in the terminal no-sketch-found
failure with the `temp_clone` staging directory still existing — the
clone-failure and no-entry-file returns of `handle_clone_finished` perform
no cleanup, so a staging directory can outlive its job. -/
theorem staging_survives_failed_discovery :
    runRemoteJob noSketchEnv = (JobEnd.noSketchFound, true) := by decide

/-- C1 (amended): the staging directory is deleted by job end exactly on
the paths that reach `handle_compile_finished` — whenever the clone
succeeds and an entry file is found, the job ends (compile success,
compile failure, or missing artifact alike) with the staging directory
deleted.  Jobs failing before compilation (clone failure, no entry file
found) leave the staging directory in place; it is only removed when the
next job starts. -/
theorem staging_deleted_when_compile_runs (env : RemoteEnv)
    (hclone : env.cloneOk = true)
    (hfound : (find_sketch_file env.clonedTree).isSome = true) :
    (runRemoteJob env).2 = false := by
  unfold runRemoteJob
  rw [if_pos hclone]
  cases hf : find_sketch_file env.clonedTree with
  | none => simp [hf] at hfound
  | some r =>
    simp only [hf]
    split <;> rfl

/-- Witness for C1's amended theorem: two jobs that reach compilation —
one whose compiler exits 1, one that succeeds — both end with the staging
directory deleted. -/
theorem staging_deleted_when_compile_runs_witness :
    (compileFailEnv.cloneOk = true ∧
      (find_sketch_file compileFailEnv.clonedTree).isSome = true ∧
      (runRemoteJob compileFailEnv).2 = false) ∧
    (compileOkEnv.cloneOk = true ∧
      (find_sketch_file compileOkEnv.clonedTree).isSome = true ∧
      (runRemoteJob compileOkEnv).2 = false) :=
  ⟨⟨rfl, by decide, staging_deleted_when_compile_runs compileFailEnv rfl (by decide)⟩,
   ⟨rfl, by decide, staging_deleted_when_compile_runs compileOkEnv rfl (by decide)⟩⟩
